import Mathlib

/-!
Verification development for the presubmitai-salesforce PR-review engine.

The definitions below are a shallow embedding of the TypeScript sources
(`src/pull_request.ts`, `src/comments.ts`, `src/messages.ts`), translated
function by function.  JS strings are modelled as Lean `String` / `List Char`
(UTF-16 surrogate pairs are not modelled; every string the engine manipulates
in the verified paths is ASCII).  JS `undefined` is modelled with `Option`.
-/

/-- Boolean prefix test on character lists (JS `String.startsWith` on a
substring position). -/
def prefB : List Char → List Char → Bool
  | [], _ => true
  | _ :: _, [] => false
  | a :: as, b :: bs => a == b && prefB as bs

/-- Boolean contiguous-substring test on character lists; this is the
semantics of JS `String.includes`. -/
def subB (pat : List Char) : List Char → Bool
  | [] => prefB pat []
  | b :: bs => prefB pat (b :: bs) || subB pat bs

/-- JS `haystack.includes(needle)`. -/
def jsIncludes (haystack needle : String) : Bool :=
  subB needle.data haystack.data

/-- JS `s.endsWith(suffix)`. -/
def jsEndsWith (s suffixStr : String) : Bool :=
  prefB suffixStr.data.reverse s.data.reverse

/-- JS `s.toLowerCase()` (ASCII case map). -/
def jsToLower (s : String) : String :=
  ⟨s.data.map Char.toLower⟩

/-- The whitespace class of JS `String.trim` (space, tab, LF, CR, VT, FF,
NBSP, BOM, LS, PS). -/
def jsWhite (c : Char) : Bool :=
  c == ' ' || c == '\t' || c == '\n' || c == '\r' || c.toNat == 11 ||
  c.toNat == 12 || c.toNat == 160 || c.toNat == 65279 ||
  c.toNat == 8232 || c.toNat == 8233

/-- JS `s.trim()`. -/
def jsTrim (s : String) : String :=
  ⟨((s.data.dropWhile jsWhite).reverse.dropWhile jsWhite).reverse⟩

/-- First index at which `pat` occurs in the list, if any. -/
def idxOfAux (pat : List Char) : List Char → Nat → Option Nat
  | [], i => if prefB pat [] then some i else none
  | b :: bs, i => if prefB pat (b :: bs) then some i else idxOfAux pat bs (i + 1)

/-- JS `s.indexOf(pat)`: first occurrence index, `-1` when absent. -/
def jsIndexOf (s pat : String) : Int :=
  match idxOfAux pat.data s.data 0 with
  | some i => (i : Int)
  | none => -1

/-- JS `s.indexOf(pat, start)`: first occurrence at or after `start`,
`-1` when absent. -/
def jsIndexOfFrom (s pat : String) (start : Nat) : Int :=
  match idxOfAux pat.data (s.data.drop start) 0 with
  | some i => ((start + i : Nat) : Int)
  | none => -1

/-- JS `s.slice(start, stop)` for `0 ≤ start ≤ stop`. -/
def jsSliceNat (s : String) (start stop : Nat) : String :=
  ⟨(s.data.take stop).drop start⟩

/-- Split a character list at every occurrence of `sep` (the semantics of
JS `s.split(sep)` for a one-character separator). -/
def splitOnChar (sep : Char) : List Char → List (List Char)
  | [] => [[]]
  | c :: rest =>
    let r := splitOnChar sep rest
    if c == sep then [] :: r
    else (c :: r.headD []) :: r.tail

/-- JS `s.split("\n")`. -/
def jsSplitLines (s : String) : List String :=
  (splitOnChar '\n' s.data).map (fun l => ⟨l⟩)

theorem prefB_iff (p l : List Char) : prefB p l = true ↔ p <+: l := by
  induction p generalizing l with
  | nil => simp [prefB]
  | cons a as ih =>
    cases l with
    | nil => simp [prefB]
    | cons b bs =>
      simp only [prefB, Bool.and_eq_true, beq_iff_eq, ih, List.cons_prefix_cons]

theorem subB_iff (p l : List Char) : subB p l = true ↔ p <:+: l := by
  induction l with
  | nil => simp [subB, prefB_iff, List.prefix_nil, List.infix_nil]
  | cons b bs ih => simp [subB, prefB_iff, ih, List.infix_cons_iff]

/-- A hunk of a parsed file diff (`src/diff.ts` shape used throughout
`pull_request.ts`): new-file line anchors plus the raw hunk text. -/
structure Hunk where
  startLine : Nat
  endLine : Nat
  diff : String
deriving DecidableEq, Repr

/-- A parsed per-file diff (`FileDiff` of `src/diff.ts` as consumed by
`pull_request.ts`); `status` is the GitHub file status string. -/
structure FileDiff where
  filename : String
  previous_filename : Option String
  status : String
  hunks : List Hunk
deriving DecidableEq, Repr

/-- A generated finding (`AIComment` of `src/prompts.ts`): `end_line` absent
means a file-level finding. -/
structure AIComment where
  file : String
  start_line : Option Nat
  end_line : Option Nat
  highlighted_code : String
  header : String
  content : String
  label : String
  critical : Bool
deriving DecidableEq, Repr

/-- A pull-request review comment (`ReviewComment` of `src/comments.ts`),
restricted to the fields the engine reads. -/
structure ReviewComment where
  id : Nat
  body : String
  line : Option Nat
  start_line : Option Nat
  in_reply_to_id : Option Nat
  path : String
  user_login : String
deriving DecidableEq, Repr

/-- A root comment plus its replies (`ReviewCommentThread` of
`src/comments.ts`). -/
structure ReviewCommentThread where
  file : String
  comments : List ReviewComment
deriving DecidableEq, Repr

/-- `COMMENT_SIGNATURE` of `src/messages.ts`. -/
def COMMENT_SIGNATURE : String := "\n<!-- presubmit.ai: comment -->"

/-- `PAYLOAD_TAG_OPEN` of `src/messages.ts`. -/
def PAYLOAD_TAG_OPEN : String := "\n<!-- presubmit.ai: payload --"

/-- `PAYLOAD_TAG_CLOSE` of `src/messages.ts`. -/
def PAYLOAD_TAG_CLOSE : String := "\n-- presubmit.ai: payload -->"

/-- Character-size estimate of one file (`estimate` inside
`batchFilesByChars`, `src/pull_request.ts`): hunk text lengths plus filename
length plus a 200-character overhead. -/
def estimate (f : FileDiff) : Nat :=
  (f.hunks.foldl (fun acc h => acc + h.diff.data.length) 0) +
    f.filename.data.length + 200

/-- The accumulator loop of `batchFilesByChars` (`src/pull_request.ts`,
lines 270-291): flush the current batch exactly when it is non-empty and
adding the next file would exceed `maxChars`. -/
def batchAux (maxChars : Nat) : List FileDiff → List FileDiff → Nat → List (List FileDiff)
  | [], current, _ => if current = [] then [] else [current]
  | f :: fs, current, size =>
    if current ≠ [] ∧ size + estimate f > maxChars then
      current :: batchAux maxChars fs [f] (estimate f)
    else
      batchAux maxChars fs (current ++ [f]) (size + estimate f)

/-- `batchFilesByChars(files, maxChars)` of `src/pull_request.ts`. -/
def batchFilesByChars (files : List FileDiff) (maxChars : Nat) : List (List FileDiff) :=
  batchAux maxChars files [] 0

theorem batchAux_join (maxChars : Nat) (fs : List FileDiff) :
    ∀ current size, (batchAux maxChars fs current size).join = current ++ fs := by
  induction fs with
  | nil =>
    intro current size
    by_cases h : current = [] <;> simp [batchAux, h]
  | cons f rest ih =>
    intro current size
    by_cases h : current ≠ [] ∧ size + estimate f > maxChars
    · simp [batchAux, h, ih]
    · simp [batchAux, h, ih]

theorem batchAux_oversized_self (maxChars : Nat) (f : FileDiff)
    (hf : estimate f > maxChars) (fs : List FileDiff) :
    ∀ size, size ≥ estimate f → [f] ∈ batchAux maxChars fs [f] size := by
  cases fs with
  | nil => intro size _; simp [batchAux]
  | cons g rest =>
    intro size hsize
    have hgt : size + estimate g > maxChars :=
      lt_of_lt_of_le hf (le_trans hsize (Nat.le_add_right _ _))
    simp [batchAux, hgt]

theorem batchAux_oversized (maxChars : Nat) (f : FileDiff)
    (hf : estimate f > maxChars) (fs : List FileDiff) :
    ∀ current size, f ∈ fs → [f] ∈ batchAux maxChars fs current size := by
  induction fs with
  | nil => intro current size hmem; cases hmem
  | cons g rest ih =>
    intro current size hmem
    rcases List.mem_cons.mp hmem with hfg | hmem
    · subst hfg
      by_cases h : current ≠ [] ∧ size + estimate f > maxChars
      · simp only [batchAux, if_pos h]
        exact List.mem_cons_of_mem _
          (batchAux_oversized_self maxChars f hf rest (estimate f) le_rfl)
      · simp only [batchAux, if_neg h]
        rcases Classical.em (current = []) with hc | hc
        · subst hc
          exact batchAux_oversized_self maxChars f hf rest (size + estimate f)
            (Nat.le_add_left _ _)
        · exfalso
          exact h ⟨hc, lt_of_lt_of_le hf (Nat.le_add_left _ _)⟩
    · by_cases h : current ≠ [] ∧ size + estimate g > maxChars
      · simp only [batchAux, if_pos h]
        exact List.mem_cons_of_mem _ (ih [g] (estimate g) hmem)
      · simp only [batchAux, if_neg h]
        exact ih (current ++ [g]) (size + estimate g) hmem

/-- C6: `batchFilesByChars` returns batches whose in-order concatenation is
the input list (no file is ever split across batches); a new batch starts
exactly when the current batch is non-empty and adding the next file's
estimate would exceed `maxChars`; and a file whose estimate alone exceeds
`maxChars` still forms its own one-file batch. -/
theorem batchFilesByChars_no_split (files : List FileDiff) (maxChars : Nat) :
    (batchFilesByChars files maxChars).join = files
    ∧ (∀ f, f ∈ files → estimate f > maxChars →
        [f] ∈ batchFilesByChars files maxChars)
    ∧ (∀ f fs current size, current ≠ [] → size + estimate f > maxChars →
        batchAux maxChars (f :: fs) current size =
          current :: batchAux maxChars fs [f] (estimate f))
    ∧ (∀ f fs current size, ¬(current ≠ [] ∧ size + estimate f > maxChars) →
        batchAux maxChars (f :: fs) current size =
          batchAux maxChars fs (current ++ [f]) (size + estimate f)) := by
  refine ⟨by simpa [batchFilesByChars] using batchAux_join maxChars files [] 0,
    ?_, ?_, ?_⟩
  · intro f hf hover
    exact batchAux_oversized maxChars f hover files [] 0 hf
  · intro f fs current size hne hgt
    simp only [batchAux, if_pos (And.intro hne hgt)]
  · intro f fs current size h
    simp only [batchAux, if_neg h]

theorem batchFilesByChars_no_split_witness :
    [FileDiff.mk "a.ts" none "modified" []] ∈
      batchFilesByChars [FileDiff.mk "a.ts" none "modified" []] 100 :=
  (batchFilesByChars_no_split [FileDiff.mk "a.ts" none "modified" []] 100).2.1
    _ (by simp) (by decide)

/-- Hard cap on inline line comments (`src/pull_request.ts`, lines 714-720):
when the kept list exceeds `maxTotal` (`config.maxComments ?? 40`), the
overflow is appended to the skipped list and only the first `maxTotal`
stay inline. -/
def capLineComments (maxTotal : Nat) (lineComments skipped : List AIComment) :
    List AIComment × List AIComment :=
  if lineComments.length > maxTotal then
    (lineComments.take maxTotal, skipped ++ lineComments.drop maxTotal)
  else (lineComments, skipped)

/-- C5: when the qualifying line-anchored list exceeds the cap, exactly the
first `maxTotal` findings stay inline, the overflow is moved to the skipped
set, and inline plus overflow reassemble the full qualifying list. -/
theorem comment_cap_enforcement (maxTotal : Nat)
    (lineComments skipped : List AIComment)
    (h : lineComments.length > maxTotal) :
    capLineComments maxTotal lineComments skipped =
      (lineComments.take maxTotal, skipped ++ lineComments.drop maxTotal)
    ∧ lineComments.take maxTotal ++ lineComments.drop maxTotal = lineComments
    ∧ (lineComments.take maxTotal).length = maxTotal
    ∧ (lineComments.drop maxTotal).length = lineComments.length - maxTotal := by
  refine ⟨by simp [capLineComments, h], List.take_append_drop _ _, ?_, by simp⟩
  simp [List.length_take, Nat.min_eq_left (le_of_lt h)]

theorem comment_cap_enforcement_witness :
    capLineComments 40
      (List.replicate 55 (AIComment.mk "a.ts" none (some 1) "" "" "Fix this." "bug" true)) [] =
      ((List.replicate 55 (AIComment.mk "a.ts" none (some 1) "" "" "Fix this." "bug" true)).take 40,
        [] ++ (List.replicate 55 (AIComment.mk "a.ts" none (some 1) "" "" "Fix this." "bug" true)).drop 40)
    ∧ ((List.replicate 55 (AIComment.mk "a.ts" none (some 1) "" "" "Fix this." "bug" true)).take 40).length = 40
    ∧ ((List.replicate 55 (AIComment.mk "a.ts" none (some 1) "" "" "Fix this." "bug" true)).drop 40).length = 15 := by
  refine ⟨(comment_cap_enforcement 40 _ [] (by simp)).1,
    (comment_cap_enforcement 40 _ [] (by simp)).2.2.1, ?_⟩
  simpa using (comment_cap_enforcement 40
    (List.replicate 55 (AIComment.mk "a.ts" none (some 1) "" "" "Fix this." "bug" true)) []
    (by simp)).2.2.2

/-- JS regex word character class `\w` = `[A-Za-z0-9_]`. -/
def isWordChar (c : Char) : Bool :=
  (c ≥ 'a' && c ≤ 'z') || (c ≥ 'A' && c ≤ 'Z') || (c ≥ '0' && c ≤ '9') || c == '_'

/-- A `\b` word boundary holds against this neighbouring character (absent
neighbour counts as a boundary). -/
def boundaryB : Option Char → Bool
  | none => true
  | some c => !isWordChar c

/-- Scan for an occurrence of word `w` with `\b` boundaries on both sides;
`prev` is the character just before the current position. -/
def scanWord (w : List Char) : Option Char → List Char → Bool
  | prev, [] => prefB w [] && boundaryB prev && boundaryB (([] : List Char).head?)
  | prev, c :: t =>
    (prefB w (c :: t) && boundaryB prev && boundaryB (((c :: t).drop w.length).head?))
      || scanWord w (some c) t

/-- The risk-keyword test of `src/pull_request.ts` line 698:
regex `\b(sql|xss|csrf|injection|overflow|sqli|dos|race|leak)\b` with the
case-insensitive flag, modelled by scanning the lowercased content for the
lowercase keywords with word boundaries. -/
def hasRiskKeyword (content : String) : Bool :=
  let lc := content.data.map Char.toLower
  ["sql", "xss", "csrf", "injection", "overflow", "sqli", "dos", "race", "leak"].any
    (fun w => scanWord w.data none lc)

/-- `HIGH_VALUE_LABELS` of `src/pull_request.ts` lines 677-682. -/
def HIGH_VALUE_LABELS : List String := ["security", "possible bug", "bug", "performance"]

/-- Trimmed content length used by the filter (`contentLen`,
`src/pull_request.ts` line 693). -/
def contentLenOf (c : AIComment) : Nat := (jsTrim c.content).data.length

/-- `isHighValue` of `src/pull_request.ts` line 694: critical, or label in
the high-value set (label compared lowercased). -/
def isHighValueB (c : AIComment) : Bool :=
  c.critical || HIGH_VALUE_LABELS.contains (jsToLower c.label)

/-- `isTypos` of `src/pull_request.ts` line 695. -/
def isTyposB (c : AIComment) : Bool := jsToLower c.label == "typo"

/-- `isSubstantive` of `src/pull_request.ts` lines 697-700: long enough, or
contains a code fence, or contains a risk keyword, or critical with at
least 10 characters. -/
def isSubstantiveB (c : AIComment) : Bool :=
  contentLenOf c ≥ 30 || jsIncludes (jsTrim c.content) "```" ||
    hasRiskKeyword (jsTrim c.content) || (c.critical && contentLenOf c ≥ 10)

/-- The keep decision of the line-comment loop (`src/pull_request.ts`
lines 702-711): high value or typo comments pass when substantive or long
enough for the typo minimum; everything else is skipped. -/
def keepLine (c : AIComment) : Bool :=
  if isHighValueB c || isTyposB c then
    let minLen := if isTyposB c then 10 else 0
    isSubstantiveB c || contentLenOf c ≥ minLen
  else false

/-- The line-comment classification loop of `src/pull_request.ts`
lines 684-712: file-level findings (no `end_line`) and findings failing
`keepLine` go to the skipped list; the rest are kept, order preserved. -/
def splitLineComments : List AIComment → List AIComment × List AIComment
  | [] => ([], [])
  | c :: rest =>
    let p := splitLineComments rest
    match c.end_line with
    | none => (p.1, c :: p.2)
    | some _ => if keepLine c then (c :: p.1, p.2) else (p.1, c :: p.2)

/-- The pre-filter of `src/pull_request.ts` lines 324-326: a finding must
have non-empty trimmed content and reference a file in the PR's current
file list. -/
def filterFindings (files : List FileDiff) (allComments : List AIComment) : List AIComment :=
  allComments.filter (fun c =>
    !(jsTrim c.content).data.isEmpty && files.any (fun f => f.filename == c.file))

theorem splitLineComments_lengths : ∀ l : List AIComment,
    (splitLineComments l).1.length + (splitLineComments l).2.length = l.length := by
  intro l
  induction l with
  | nil => simp [splitLineComments]
  | cons c rest ih =>
    cases h : c.end_line with
    | none => simp [splitLineComments, h]; omega
    | some e =>
      by_cases hk : keepLine c = true <;> simp [splitLineComments, h, hk] <;> omega

theorem splitLineComments_mem : ∀ (l : List AIComment) (c : AIComment), c ∈ l →
    c ∈ (splitLineComments l).1 ∨ c ∈ (splitLineComments l).2 := by
  intro l
  induction l with
  | nil => intro c hc; cases hc
  | cons d rest ih =>
    intro c hc
    rcases List.mem_cons.mp hc with hcd | hc
    · subst hcd
      cases h : c.end_line with
      | none => simp [splitLineComments, h]
      | some e =>
        by_cases hk : keepLine c = true <;> simp [splitLineComments, h, hk]
    · cases h : d.end_line with
      | none =>
        rcases ih c hc with h1 | h1 <;> simp [splitLineComments, h, h1]
      | some e =>
        by_cases hk : keepLine d = true <;>
          rcases ih c hc with h1 | h1 <;> simp [splitLineComments, h, hk, h1]

theorem splitLineComments_kept : ∀ (l : List AIComment) (c : AIComment),
    c ∈ (splitLineComments l).1 → c.end_line.isSome ∧ keepLine c = true := by
  intro l
  induction l with
  | nil => intro c hc; simp [splitLineComments] at hc
  | cons d rest ih =>
    intro c hc
    cases h : d.end_line with
    | none =>
      simp only [splitLineComments, h] at hc
      exact ih c hc
    | some e =>
      by_cases hk : keepLine d = true
      · simp only [splitLineComments, h, hk, if_true] at hc
        rcases List.mem_cons.mp hc with hcd | hc
        · subst hcd; exact ⟨by simp [h], hk⟩
        · exact ih c hc
      · simp only [splitLineComments, h, hk, if_false] at hc
        exact ih c hc

theorem splitLineComments_complete : ∀ (l : List AIComment) (c : AIComment),
    c ∈ l → c.end_line.isSome → keepLine c = true → c ∈ (splitLineComments l).1 := by
  intro l
  induction l with
  | nil => intro c hc; cases hc
  | cons d rest ih =>
    intro c hc hsome hk
    rcases List.mem_cons.mp hc with hcd | hc
    · subst hcd
      cases h : c.end_line with
      | none => rw [h] at hsome; cases hsome
      | some e => simp [splitLineComments, h, hk]
    · cases h : d.end_line with
      | none => simpa [splitLineComments, h] using ih c hc hsome hk
      | some e =>
        by_cases hkd : keepLine d = true
        · simp only [splitLineComments, h, hkd, if_true, List.mem_cons]
          exact Or.inr (ih c hc hsome hk)
        · simpa [splitLineComments, h, hkd] using ih c hc hsome hk

theorem keepLine_characterization (c : AIComment) :
    keepLine c = ((isHighValueB c && !isTyposB c) ||
      (isTyposB c && (isSubstantiveB c || contentLenOf c ≥ 10))) := by
  cases hv : isHighValueB c <;> cases ht : isTyposB c <;>
    simp [keepLine, hv, ht]

/-- C4 (amended): the line-comment filter keeps a line-anchored finding iff
it is high value (critical or a security/possible bug/bug/performance
label) — in which case the content-substance bar is irrelevant — or it is
labeled typo and is substantive or at least 10 characters long; every
other line-anchored finding is skipped even when it meets the substance
bar; nothing is discarded (kept and skipped partition the input); and the
pre-filter admits exactly findings with non-empty trimmed content that
reference a file of the PR's current file list. -/
theorem line_comment_filter_characterization (comments : List AIComment) :
    ((splitLineComments comments).1.length +
        (splitLineComments comments).2.length = comments.length)
    ∧ (∀ c ∈ comments,
        c ∈ (splitLineComments comments).1 ∨ c ∈ (splitLineComments comments).2)
    ∧ (∀ c ∈ (splitLineComments comments).1, c.end_line.isSome ∧ keepLine c = true)
    ∧ (∀ c ∈ comments, c.end_line.isSome → keepLine c = true →
        c ∈ (splitLineComments comments).1)
    ∧ (∀ c, keepLine c = ((isHighValueB c && !isTyposB c) ||
        (isTyposB c && (isSubstantiveB c || contentLenOf c ≥ 10))))
    ∧ (∀ (files : List FileDiff) (c : AIComment), c ∈ filterFindings files comments →
        (jsTrim c.content).data ≠ [] ∧ files.any (fun f => f.filename == c.file) = true) := by
  refine ⟨splitLineComments_lengths comments,
    fun c hc => splitLineComments_mem comments c hc,
    fun c hc => splitLineComments_kept comments c hc,
    fun c hc h1 h2 => splitLineComments_complete comments c hc h1 h2,
    keepLine_characterization, ?_⟩
  intro files c hc
  have h := (List.mem_filter.mp hc).2
  have h1 := (Bool.and_eq_true _ _).mp h
  refine ⟨?_, h1.2⟩
  have : (jsTrim c.content).data.isEmpty = false := by
    cases hemp : (jsTrim c.content).data.isEmpty
    · rfl
    · rw [hemp] at h1; exact absurd h1.1 (by simp)
  simpa [List.isEmpty_iff] using this

theorem line_comment_filter_characterization_witness :
    AIComment.mk "a.ts" (some 1) (some 5) "" "" "short" "bug" true ∈
      (splitLineComments
        [AIComment.mk "a.ts" (some 1) (some 5) "" "" "short" "bug" true]).1 :=
  (line_comment_filter_characterization
      [AIComment.mk "a.ts" (some 1) (some 5) "" "" "short" "bug" true]).2.2.2.1
    _ (by simp) (by decide) (by decide)

/-- C4 counterexample: a line-anchored, in-scope finding whose content
clearly meets the substance bar (56 trimmed characters, and the standalone
risk keyword "leak") but is neither critical nor carrying a recognized
label is skipped, not kept — the claim says it would be kept. -/
theorem substantive_finding_skipped_cex :
    isSubstantiveB (AIComment.mk "a.ts" (some 1) (some 5) "" ""
        "Possible resource leak: close the file handle after use." "style" false) = true
    ∧ keepLine (AIComment.mk "a.ts" (some 1) (some 5) "" ""
        "Possible resource leak: close the file handle after use." "style" false) = false
    ∧ splitLineComments [AIComment.mk "a.ts" (some 1) (some 5) "" ""
        "Possible resource leak: close the file handle after use." "style" false] =
      ([], [AIComment.mk "a.ts" (some 1) (some 5) "" ""
        "Possible resource leak: close the file handle after use." "style" false]) := by
  refine ⟨by decide, by decide, ?_⟩
  simp [splitLineComments]
  decide

/-- The flow-scope pattern of `filterFilesByScope` (`src/pull_request.ts`
lines 1197-1198): lowercased filename contains `/flows/` and ends with
`.flow-meta.xml`. -/
def isFlowB (filename : String) : Bool :=
  jsIncludes (jsToLower filename) "/flows/" &&
    jsEndsWith (jsToLower filename) ".flow-meta.xml"

/-- The data-model-scope pattern of `filterFilesByScope`
(`src/pull_request.ts` lines 1199-1201): under `/objects/` with
`.object-meta.xml` suffix or `/fields/` path, or under
`/globalvaluesets/`. -/
def isDataModelB (filename : String) : Bool :=
  (jsIncludes (jsToLower filename) "/objects/" &&
      (jsEndsWith (jsToLower filename) ".object-meta.xml" ||
        jsIncludes (jsToLower filename) "/fields/"))
    || jsIncludes (jsToLower filename) "/globalvaluesets/"

/-- The per-file scope decision of `filterFilesByScope`
(`src/pull_request.ts` lines 1194-1209). -/
def scopeSelects (scope : String) (filename : String) : Bool :=
  if jsToLower scope == "flows" then isFlowB filename
  else if jsToLower scope == "data-model" then isDataModelB filename
  else if jsToLower scope == "apex" then !isFlowB filename && !isDataModelB filename
  else true

/-- `filterFilesByScope(files, scope)` of `src/pull_request.ts`. -/
def filterFilesByScope (files : List FileDiff) (scope : String) : List FileDiff :=
  files.filter (fun f => scopeSelects scope f.filename)

/-- C7 (amended): the named scopes cover every filename — `apex` selects
exactly the files matching neither the flow nor the data-model pattern, so
each file is selected by at least one scope — but the flow and data-model
patterns are not mutually exclusive, so the three scope subsets cover,
without partitioning, any input file list. -/
theorem scope_coverage (fn : String) :
    scopeSelects "flows" fn = isFlowB fn
    ∧ scopeSelects "data-model" fn = isDataModelB fn
    ∧ scopeSelects "apex" fn = (!isFlowB fn && !isDataModelB fn)
    ∧ (scopeSelects "flows" fn || scopeSelects "data-model" fn ||
        scopeSelects "apex" fn) = true := by
  refine ⟨rfl, rfl, rfl, ?_⟩
  show (isFlowB fn || isDataModelB fn || (!isFlowB fn && !isDataModelB fn)) = true
  cases hf : isFlowB fn <;> cases hd : isDataModelB fn <;> simp

/-- C7 counterexample: this filename is selected both by the `flows` scope
and by the `data-model` scope (and not by `apex`), so the scopes are not
mutually exclusive and the scope subsets do not partition the file list. -/
theorem scope_overlap_cex :
    scopeSelects "flows" "x/globalvaluesets/flows/a.flow-meta.xml" = true
    ∧ scopeSelects "data-model" "x/globalvaluesets/flows/a.flow-meta.xml" = true
    ∧ scopeSelects "apex" "x/globalvaluesets/flows/a.flow-meta.xml" = false := by
  refine ⟨by decide, by decide, by decide⟩

/-- `hashString` of `src/pull_request.ts` lines 558-564 (djb2-xor over JS
32-bit arithmetic).  The running value is tracked as its unsigned 32-bit
bit pattern: `h = (h * 33) ^ charCode` under `ToInt32` agrees modulo
`2 ^ 32` with `(u * 33 % 2 ^ 32) ^^^ charCode`, and `h >>> 0` is exactly
that pattern. -/
def hashString (input : String) : Nat :=
  input.data.foldl (fun h c => Nat.xor (h * 33 % 4294967296) c.toNat) 5381

/-- JS `(h >>> 0).toString(16)`: lowercase hexadecimal rendering. -/
def hashHex (n : Nat) : String := ⟨Nat.toDigits 16 n⟩

/-- JS truthy string fallback `a || b` for an optional `a`. -/
def jsOrStr (a : Option String) (b : String) : String :=
  match a with
  | some s => if s.data.isEmpty then b else s
  | none => b

/-- `makeStableKey(kind, file, line, header, content)` of
`src/pull_request.ts` lines 565-574: `kind|file|line ?? 0|` plus the first
80 characters of the header or, when the header is absent or empty, of the
first content line trimmed and lowercased. -/
def makeStableKey (kind file : String) (line : Option Nat)
    (header content : Option String) : String :=
  let firstLine := jsToLower (jsTrim ((jsSplitLines (content.getD "")).headD ""))
  kind ++ "|" ++ file ++ "|" ++ toString (line.getD 0) ++ "|" ++
    ⟨(jsOrStr header firstLine).data.take 80⟩

/-- `makeUpsertSignature(kind, file, line, header, content)` of
`src/pull_request.ts` lines 575-585. -/
def makeUpsertSignature (kind file : String) (line : Option Nat)
    (header content : Option String) : String :=
  "<!-- presubmit.ai: upsert:" ++ hashHex (hashString (makeStableKey kind file line header content)) ++
    ":" ++ makeStableKey kind file line header content ++ " -->"

/-- The search step of `upsertIssueCommentBySignature` (`src/pull_request.ts`
lines 586-618): an existing comment matches when its body contains the
signature; a match means update in place, no match means create. -/
def upsertFindsExisting (existingBodies : List String) (sig : String) : Bool :=
  existingBodies.any (fun b => jsIncludes b sig)

/-- C3 (amended): the upsert signature is deterministic in (kind, file,
line, header-or-first-content-line); re-running with an identical finding
produces the same signature, and the signed body posted earlier contains
that signature, so the upsert search finds and updates it — never a
duplicate.  For a non-empty header the signature does not depend on the
content at all, so a changed finding with the same header updates the
prior comment in place rather than creating a new one. -/
theorem upsert_signature_idempotence (kind file : String) (line : Option Nat)
    (h : String) (c₁ c₂ : Option String) (rest : String)
    (hne : h.data ≠ []) :
    makeUpsertSignature kind file line (some h) c₁ =
      makeUpsertSignature kind file line (some h) c₂
    ∧ upsertFindsExisting [makeUpsertSignature kind file line (some h) c₁ ++ rest]
        (makeUpsertSignature kind file line (some h) c₂) = true := by
  have hempty : h.data.isEmpty = false := by
    cases he : h.data.isEmpty
    · rfl
    · exact absurd (List.isEmpty_iff.mp he) hne
  have hkey : ∀ c, makeStableKey kind file line (some h) c =
      kind ++ "|" ++ file ++ "|" ++ toString (line.getD 0) ++ "|" ++ ⟨h.data.take 80⟩ := by
    intro c
    simp [makeStableKey, jsOrStr, hempty]
  have hsig : makeUpsertSignature kind file line (some h) c₁ =
      makeUpsertSignature kind file line (some h) c₂ := by
    simp [makeUpsertSignature, hkey]
  refine ⟨hsig, ?_⟩
  rw [← hsig]
  have hdata : (makeUpsertSignature kind file line (some h) c₁ ++ rest).data =
      (makeUpsertSignature kind file line (some h) c₁).data ++ rest.data := rfl
  simp only [upsertFindsExisting, List.any_cons, List.any_nil, Bool.or_false,
    jsIncludes, hdata]
  exact (subB_iff _ _).mpr ⟨[], rest.data, by simp⟩

theorem upsert_signature_idempotence_witness :
    makeUpsertSignature "file-note" "a.ts" none (some "Header") (some "C") =
      makeUpsertSignature "file-note" "a.ts" none (some "Header") (some "C")
    ∧ upsertFindsExisting
        [makeUpsertSignature "file-note" "a.ts" none (some "Header") (some "C") ++ "\nBody"]
        (makeUpsertSignature "file-note" "a.ts" none (some "Header") (some "C")) = true :=
  upsert_signature_idempotence "file-note" "a.ts" none "Header" (some "C") (some "C")
    "\nBody" (by decide)

/-- C3 counterexample: two findings on the same file with the same header
but different content receive the same upsert signature — the claim says
the signatures would differ. -/
theorem upsert_signature_same_header_cex :
    makeUpsertSignature "file-note" "a.ts" none (some "Header") (some "Content one.") =
      makeUpsertSignature "file-note" "a.ts" none (some "Header") (some "Content two, different.")
    ∧ ("Content one." : String) ≠ "Content two, different." :=
  ⟨rfl, by decide⟩

/-- `truncateCodeBlocks(text, maxLines)` of `src/comments.ts` lines 117-158:
walk the lines tracking fence state; inside a fence keep at most `maxLines`
lines, emit one truncation marker for the first overflow line, and drop the
rest; fence delimiters and prose lines are always kept. -/
def truncateCodeBlocks (text : String) (maxLines : Nat) : String :=
  let step := fun (acc : List String × Bool × Nat) (line : String) =>
    if prefB "```".data line.data then
      (acc.1 ++ [line], !acc.2.1, if acc.2.1 then acc.2.2 else 0)
    else if acc.2.1 then
      let c := acc.2.2 + 1
      if c ≤ maxLines then (acc.1 ++ [line], acc.2.1, c)
      else if c = maxLines + 1 then
        (acc.1 ++ ["... (truncated; more lines omitted) ..."], acc.2.1, c)
      else (acc.1, acc.2.1, c)
    else (acc.1 ++ [line], acc.2.1, acc.2.2)
  String.intercalate "\n" (((jsSplitLines text).foldl step ([], false, 0)).1)

/-- `buildComment(comment)` of `src/comments.ts` lines 160-164; `maxLines`
stands for `config.maxCodeblockLines ?? 60`. -/
def buildComment (maxLines : Nat) (comment : String) : String :=
  truncateCodeBlocks comment maxLines ++ "\n\n" ++ COMMENT_SIGNATURE

/-- `isOwnComment(comment)` of `src/comments.ts` lines 113-115. -/
def isOwnComment (comment : String) : Bool :=
  jsIncludes comment COMMENT_SIGNATURE

/-- `isThreadRelevant(thread)` of `src/comments.ts` lines 78-85. -/
def isThreadRelevant (t : ReviewCommentThread) : Bool :=
  t.comments.any (fun c => jsIncludes c.body COMMENT_SIGNATURE ||
    jsIncludes c.body "@presubmitai" || jsIncludes c.body "@presubmit")

/-- C10: every body built by `buildComment` — for any comment text and any
configured code-block line limit — contains `COMMENT_SIGNATURE`, so
`isOwnComment` recognizes it and any thread containing such a comment is
`isThreadRelevant`. -/
theorem own_comment_recognized (s : String) (maxLines : Nat)
    (t : ReviewCommentThread) (c : ReviewComment) :
    isOwnComment (buildComment maxLines s) = true
    ∧ (c.body = buildComment maxLines s → c ∈ t.comments →
        isThreadRelevant t = true) := by
  have hdata : (buildComment maxLines s).data =
      (truncateCodeBlocks s maxLines ++ "\n\n").data ++ COMMENT_SIGNATURE.data := rfl
  have hown : isOwnComment (buildComment maxLines s) = true := by
    simp only [isOwnComment, jsIncludes, hdata]
    exact (subB_iff _ _).mpr ⟨(truncateCodeBlocks s maxLines ++ "\n\n").data, [], by simp⟩
  refine ⟨hown, fun hb hm => ?_⟩
  refine List.any_eq_true.mpr ⟨c, hm, ?_⟩
  have : jsIncludes c.body COMMENT_SIGNATURE = true := by
    rw [hb]; exact hown
  simp [this]

theorem own_comment_recognized_witness :
    isOwnComment (buildComment 60 "hello") = true
    ∧ isThreadRelevant
        (ReviewCommentThread.mk "f"
          [ReviewComment.mk 1 (buildComment 60 "hello") (some 3) none none "f" "bot"]) = true :=
  ⟨(own_comment_recognized "hello" 60
      (ReviewCommentThread.mk "f"
        [ReviewComment.mk 1 (buildComment 60 "hello") (some 3) none none "f" "bot"])
      (ReviewComment.mk 1 (buildComment 60 "hello") (some 3) none none "f" "bot")).1,
    (own_comment_recognized "hello" 60
      (ReviewCommentThread.mk "f"
        [ReviewComment.mk 1 (buildComment 60 "hello") (some 3) none none "f" "bot"])
      (ReviewComment.mk 1 (buildComment 60 "hello") (some 3) none none "f" "bot")).2
      rfl (by simp)⟩

/-- Rendering of an optional line number inside a thread-index key
(JS template `${n ?? ""}`). -/
def optNatStr : Option Nat → String
  | none => ""
  | some n => toString n

/-- `makeKey(path, endLine, startLine)` of `submitReview`
(`src/pull_request.ts` lines 454-455). -/
def makeKey (path : String) (endL startL : Option Nat) : String :=
  path ++ "#" ++ optNatStr endL ++ "#" ++ optNatStr startL

/-- The thread index of `submitReview` (`src/pull_request.ts` lines
456-463): threads are inserted under the key built from the thread's own
recorded `file` and its root comment's `line`/`start_line`; a later thread
with the same key overwrites an earlier one (JS `Map.set`). -/
def threadsIndexGet (prThreads : List ReviewCommentThread) (key : String) :
    Option ReviewCommentThread :=
  prThreads.foldl
    (fun acc t =>
      match t.comments.head? with
      | none => acc
      | some top =>
        if makeKey t.file top.line top.start_line == key then some t else acc)
    none

/-- `resolveReviewPath(p)` of `submitReview` (`src/pull_request.ts` lines
465-468): a path equal to some file's `previous_filename` resolves to that
file's current `filename`. -/
def resolveReviewPath (files : List FileDiff) (p : String) : String :=
  match files.find? (fun fd => fd.previous_filename == some p) with
  | some f => f.filename
  | none => p

/-- `findExistingThread(path, endLine, startLine)` of `submitReview`
(`src/pull_request.ts` lines 470-477). -/
def findExistingThread (prThreads : List ReviewCommentThread) (path : String)
    (endL startL : Option Nat) : Option ReviewCommentThread :=
  match endL with
  | none => none
  | some _ => threadsIndexGet prThreads (makeKey path endL startL)

/-- The reply-vs-new-anchor split of `submitReview` (`src/pull_request.ts`
lines 726-731): a finding is a reply candidate exactly when an indexed
thread exists at its rename-resolved path and line anchors. -/
def isReplyCandidate (files : List FileDiff) (prThreads : List ReviewCommentThread)
    (c : AIComment) : Bool :=
  (findExistingThread prThreads (resolveReviewPath files c.file) c.end_line c.start_line).isSome

/-- C2 (amended): rename resolution applies only to the finding's path —
`resolveReviewPath` maps `old.ts` to `new.ts` when the PR records that
rename — while thread-index keys keep the thread's own recorded path.  So
a finding at (S, E) on either name is a reply exactly when a relevant
thread root is anchored on `new.ts` (the current name) at (S, E); a thread
root still anchored on `old.ts` is never matched, and the finding becomes
a new anchored comment. -/
theorem rename_resolution_classification (S E : Nat) :
    resolveReviewPath [FileDiff.mk "new.ts" (some "old.ts") "renamed" []] "old.ts" = "new.ts"
    ∧ resolveReviewPath [FileDiff.mk "new.ts" (some "old.ts") "renamed" []] "new.ts" = "new.ts"
    ∧ isReplyCandidate [FileDiff.mk "new.ts" (some "old.ts") "renamed" []]
        [ReviewCommentThread.mk "new.ts"
          [ReviewComment.mk 1 ("note" ++ COMMENT_SIGNATURE) (some E) (some S) none "new.ts" "bot"]]
        (AIComment.mk "new.ts" (some S) (some E) "" "" "c" "bug" true) = true
    ∧ isReplyCandidate [FileDiff.mk "new.ts" (some "old.ts") "renamed" []]
        [ReviewCommentThread.mk "new.ts"
          [ReviewComment.mk 1 ("note" ++ COMMENT_SIGNATURE) (some E) (some S) none "new.ts" "bot"]]
        (AIComment.mk "old.ts" (some S) (some E) "" "" "c" "bug" true) = true
    ∧ isReplyCandidate [FileDiff.mk "new.ts" (some "old.ts") "renamed" []]
        [ReviewCommentThread.mk "old.ts"
          [ReviewComment.mk 1 ("note" ++ COMMENT_SIGNATURE) (some E) (some S) none "old.ts" "bot"]]
        (AIComment.mk "new.ts" (some S) (some E) "" "" "c" "bug" true) = false := by
  refine ⟨rfl, rfl, ?_, ?_, ?_⟩
  · show (threadsIndexGet
        [ReviewCommentThread.mk "new.ts"
          [ReviewComment.mk 1 ("note" ++ COMMENT_SIGNATURE) (some E) (some S) none "new.ts" "bot"]]
        (makeKey "new.ts" (some E) (some S))).isSome = true
    simp [threadsIndexGet]
  · show (threadsIndexGet
        [ReviewCommentThread.mk "new.ts"
          [ReviewComment.mk 1 ("note" ++ COMMENT_SIGNATURE) (some E) (some S) none "new.ts" "bot"]]
        (makeKey "new.ts" (some E) (some S))).isSome = true
    simp [threadsIndexGet]
  · have hne : (makeKey "old.ts" (some E) (some S) ==
        makeKey "new.ts" (some E) (some S)) = false := by
      refine beq_eq_false_iff_ne.mpr (fun heq => ?_)
      have h3 : (makeKey "old.ts" (some E) (some S)).data.head? =
          (makeKey "new.ts" (some E) (some S)).data.head? := by rw [heq]
      have h1 : (makeKey "old.ts" (some E) (some S)).data.head? = some 'o' := rfl
      have h2 : (makeKey "new.ts" (some E) (some S)).data.head? = some 'n' := rfl
      rw [h1, h2] at h3
      simp at h3
    show (threadsIndexGet
        [ReviewCommentThread.mk "old.ts"
          [ReviewComment.mk 1 ("note" ++ COMMENT_SIGNATURE) (some E) (some S) none "old.ts" "bot"]]
        (makeKey "new.ts" (some E) (some S))).isSome = false
    simp [threadsIndexGet, hne]
    exact beq_eq_false_iff_ne.mp hne

/-- C2 counterexample: the PR records the rename `old.ts → new.ts`; a
relevant existing thread is rooted on `old.ts` at exactly (2, 5); a new
finding on `new.ts` at (2, 5) is nevertheless classified as a new anchored
comment (`isReplyCandidate = false`) — the claim says it would be a reply
to that thread. -/
theorem rename_thread_not_reply_cex :
    isThreadRelevant
      (ReviewCommentThread.mk "old.ts"
        [ReviewComment.mk 1 ("note" ++ COMMENT_SIGNATURE) (some 5) (some 2) none "old.ts" "bot"]) = true
    ∧ isReplyCandidate [FileDiff.mk "new.ts" (some "old.ts") "renamed" []]
        ([ReviewCommentThread.mk "old.ts"
          [ReviewComment.mk 1 ("note" ++ COMMENT_SIGNATURE) (some 5) (some 2) none "old.ts" "bot"]].filter
          isThreadRelevant)
        (AIComment.mk "new.ts" (some 2) (some 5) "" "" "content" "bug" true) = false := by
  refine ⟨by decide, by decide⟩

/-- A parsed JSON value (the result shape of the platform `JSON.parse`);
numbers are modelled as integers, which is enough for the payload logic,
whose commits are strings. -/
inductive JsonVal where
  | null
  | Jbool (b : Bool)
  | Jnum (n : Int)
  | Jstr (s : String)
  | Jarr (elems : List JsonVal)
  | Jobj (members : List (String × JsonVal))

/-- The payload extraction of `handlePullRequest` (`src/pull_request.ts`
lines 101-109): `payloadJson` starts as `"{}"` and is replaced by the
substring between the two sentinel markers only when both markers are
present and the close marker occurs strictly after the open marker's
end. -/
def extractPayloadJson (body : String) : String :=
  if jsIncludes body PAYLOAD_TAG_OPEN && jsIncludes body PAYLOAD_TAG_CLOSE then
    if jsIndexOfFrom body PAYLOAD_TAG_CLOSE
          (jsIndexOf body PAYLOAD_TAG_OPEN + (PAYLOAD_TAG_OPEN.data.length : Int)).toNat >
        jsIndexOf body PAYLOAD_TAG_OPEN + (PAYLOAD_TAG_OPEN.data.length : Int) then
      jsSliceNat body
        (jsIndexOf body PAYLOAD_TAG_OPEN + (PAYLOAD_TAG_OPEN.data.length : Int)).toNat
        (jsIndexOfFrom body PAYLOAD_TAG_CLOSE
          (jsIndexOf body PAYLOAD_TAG_OPEN + (PAYLOAD_TAG_OPEN.data.length : Int)).toNat).toNat
    else "\x7b\x7d"
  else "\x7b\x7d"

/-- JS member access `payload.commits` on a parsed JSON value: an object
lookup; any non-object yields `undefined`. -/
def lookupMember (j : JsonVal) (k : String) : Option JsonVal :=
  match j with
  | .Jobj ms => (ms.find? (fun m => m.1 == k)).map (fun m => m.2)
  | _ => none

/-- The guarded payload decode of `handlePullRequest` (`src/pull_request.ts`
lines 100-114): `JSON.parse` is the platform parser, modelled as an
arbitrary function returning `none` when it would throw; the `try`/`catch`
plus the `Array.isArray` check leave `commitsReviewed = []` on any failure
or on a missing/non-array `commits` member. -/
def commitsReviewedOf (jsonParse : String → Option JsonVal) (body : String) :
    List JsonVal :=
  match jsonParse (extractPayloadJson body) with
  | none => []
  | some payload =>
    match lookupMember payload "commits" with
    | some (.Jarr l) => l
    | _ => []

/-- A fetched commit (`{sha, commit: {message}}` flattened). -/
structure CommitInfo where
  sha : String
  message : String
deriving DecidableEq, Repr

/-- JS strict equality of a parsed payload entry against a commit sha:
only a string entry with the same characters matches. -/
def jsEqStr : JsonVal → String → Bool
  | .Jstr s, t => s == t
  | _, _ => false

/-- `commitsToReview` of `src/pull_request.ts` lines 139-141: with no
recorded commits, every commit is in scope (full review); otherwise the
recorded shas are filtered out (JS `includes` compares with `===`). -/
def commitsToReviewOf (commitsReviewed : List JsonVal) (commits : List CommitInfo) :
    List CommitInfo :=
  if commitsReviewed.isEmpty then commits
  else commits.filter (fun c => !commitsReviewed.any (fun j => jsEqStr j c.sha))

/-- C8: decoding the RunState payload never fails the run — for every body
and every parser outcome the reviewed-commit list is well defined: missing
or mis-ordered markers leave the default `"{}"` payload, a parse failure
or a missing/non-array `commits` member degrades to the empty list, a
well-formed payload yields its commits, and an empty reviewed list makes
the handler review all commits (full review). -/
theorem payload_decode_degrades (jsonParse : String → Option JsonVal)
    (body : String) (commits : List CommitInfo) :
    (¬(jsIncludes body PAYLOAD_TAG_OPEN = true ∧ jsIncludes body PAYLOAD_TAG_CLOSE = true) →
      extractPayloadJson body = "\x7b\x7d")
    ∧ (jsIncludes body PAYLOAD_TAG_OPEN = true → jsIncludes body PAYLOAD_TAG_CLOSE = true →
        ¬(jsIndexOfFrom body PAYLOAD_TAG_CLOSE
            (jsIndexOf body PAYLOAD_TAG_OPEN + (PAYLOAD_TAG_OPEN.data.length : Int)).toNat >
          jsIndexOf body PAYLOAD_TAG_OPEN + (PAYLOAD_TAG_OPEN.data.length : Int)) →
        extractPayloadJson body = "\x7b\x7d")
    ∧ (jsonParse (extractPayloadJson body) = none → commitsReviewedOf jsonParse body = [])
    ∧ (∀ v, jsonParse (extractPayloadJson body) = some v →
        (∀ l, lookupMember v "commits" ≠ some (JsonVal.Jarr l)) →
        commitsReviewedOf jsonParse body = [])
    ∧ (∀ v l, jsonParse (extractPayloadJson body) = some v →
        lookupMember v "commits" = some (JsonVal.Jarr l) →
        commitsReviewedOf jsonParse body = l)
    ∧ (commitsReviewedOf jsonParse body = [] →
        commitsToReviewOf (commitsReviewedOf jsonParse body) commits = commits) := by
  refine ⟨?_, ?_, ?_, ?_, ?_, ?_⟩
  · intro h
    have hb : (jsIncludes body PAYLOAD_TAG_OPEN && jsIncludes body PAYLOAD_TAG_CLOSE) = false := by
      cases hx : jsIncludes body PAYLOAD_TAG_OPEN <;>
        cases hy : jsIncludes body PAYLOAD_TAG_CLOSE <;> simp_all
    simp [extractPayloadJson, hb]
  · intro h1 h2 h3
    unfold extractPayloadJson
    rw [h1, h2]
    simp only [Bool.and_self, if_true]
    rw [if_neg h3]
  · intro h
    simp [commitsReviewedOf, h]
  · intro v hv hl
    simp only [commitsReviewedOf, hv]
  · intro v l hv hl
    simp [commitsReviewedOf, hv, hl]
  · intro h
    rw [h]
    simp [commitsToReviewOf]

theorem payload_decode_degrades_witness :
    extractPayloadJson "no markers here" = "\x7b\x7d"
    ∧ commitsReviewedOf (fun _ => none) "no markers here" = []
    ∧ commitsToReviewOf (commitsReviewedOf (fun _ => none) "no markers here")
        [CommitInfo.mk "abc123" "m1"] = [CommitInfo.mk "abc123" "m1"] :=
  ⟨(payload_decode_degrades (fun _ => none) "no markers here" [CommitInfo.mk "abc123" "m1"]).1
      (by decide),
    (payload_decode_degrades (fun _ => none) "no markers here" [CommitInfo.mk "abc123" "m1"]).2.2.1
      rfl,
    (payload_decode_degrades (fun _ => none) "no markers here" [CommitInfo.mk "abc123" "m1"]).2.2.2.2.2
      ((payload_decode_degrades (fun _ => none) "no markers here" [CommitInfo.mk "abc123" "m1"]).2.2.1 rfl)⟩

/-- One element of `commentsData` (`src/pull_request.ts` lines 733-740):
the prepared new anchored review comment (`side`/`start_side` are the
constant `"RIGHT"` markers and carry no information). -/
structure BatchComment where
  path : String
  body : String
  line : Nat
  start_line : Option Nat
deriving DecidableEq, Repr

/-- `withRetries(fn, attempts)` of `src/pull_request.ts` lines 520-532
succeeds exactly when one of the `attempts` tries succeeds (it returns on
the first success and rethrows the last error after the final failure). -/
def withRetriesOk (attempts : Nat) (attemptOk : Nat → Bool) : Bool :=
  (List.range attempts).any attemptOk

/-- `processWithConcurrency(items, worker, concurrency)` of
`src/pull_request.ts` lines 533-555: the single-threaded `idx++` hand-out
gives every index to exactly one worker, and `results[i]` records item
`i`'s own outcome, so the result list is the per-item outcomes in index
order; the worker-pool interleaving affects only the timing of the host
calls, never which items are attempted. -/
def batchAttempts (batch : List BatchComment) (outcome : BatchComment → Nat → Bool) :
    List (BatchComment × Bool) :=
  batch.enum.map (fun p => (p.2, outcome p.2 p.1))

/-- The comments of a failed batch whose individual resubmission was still
rejected after retries (`res.status === "rejected"`,
`src/pull_request.ts` lines 838-840). -/
def rejectedOf (batch : List BatchComment) (outcome : BatchComment → Nat → Bool) :
    List BatchComment :=
  ((batch.enum.filter (fun p => !outcome p.2 p.1)).map (fun p => p.2))

/-- Row numbering of `getUnifiedExcerpt` (`src/pull_request.ts` lines
492-507): skip empty rows, leave `@@` and `-` rows unnumbered, number the
rest consecutively from the hunk's `startLine`. -/
def numberRows (startLine : Nat) (rows : List String) : List (Option Nat × String) :=
  (rows.foldl
    (fun (acc : List (Option Nat × String) × Nat) r =>
      if r.data.isEmpty then acc
      else if prefB "@@".data r.data then (acc.1 ++ [(none, r)], acc.2)
      else if prefB "-".data r.data then (acc.1 ++ [(none, r)], acc.2)
      else (acc.1 ++ [(some acc.2, r)], acc.2 + 1))
    ([], startLine)).1

/-- `getUnifiedExcerpt(files, path, line, contextLines)` of
`src/pull_request.ts` lines 480-516: a ±context excerpt around the target
new-file line, or `undefined` when the file, hunk or line cannot be
located. -/
def getUnifiedExcerpt (files : List FileDiff) (path : String) (line : Nat)
    (contextLines : Nat) : Option String :=
  let fd? := match files.find? (fun f => f.filename == path) with
             | some fd => some fd
             | none => files.find? (fun f => f.previous_filename == some path)
  match fd? with
  | none => none
  | some fd =>
    if fd.hunks.isEmpty then none
    else
      match fd.hunks.find? (fun h => decide (line ≥ h.startLine) && decide (line ≤ h.endLine)) with
      | none => none
      | some hunk =>
        let numbered := numberRows hunk.startLine (jsSplitLines hunk.diff)
        match numbered.findIdx? (fun x => x.1 == some line) with
        | none => none
        | some idx =>
          some (String.intercalate "\n"
            (((numbered.take (min (numbered.length - 1) (idx + contextLines) + 1)).drop
                (idx - contextLines)).map
              (fun x => match x.1 with
                | some n => toString n ++ " " ++ x.2
                | none => x.2)))

/-- `orig` of the fallback path (`src/pull_request.ts` lines 843-845): the
original finding matching this batch comment by file and end line. -/
def fallbackOrig (lineComments : List AIComment) (cm : BatchComment) : Option AIComment :=
  lineComments.find? (fun c => c.file == cm.path && c.end_line == some cm.line)

/-- `renameNote` of the fallback path (`src/pull_request.ts` lines
846-852); a missing `previous_filename` stringifies to `"undefined"` in
the JS template. -/
def fallbackRenameNote (files : List FileDiff) (target : String) : String :=
  match files.find? (fun f => f.filename == target || f.previous_filename == some target) with
  | some fd =>
    if fd.status == "renamed" then
      "\n\nRenamed: " ++
        (match fd.previous_filename with | some p => p | none => "undefined") ++
        " → " ++ fd.filename
    else ""
  | none => ""

/-- `codeBlock` of the fallback path (`src/pull_request.ts` lines
854-862): the finding's highlighted code when non-blank, else a unified
excerpt when one exists, else empty. -/
def fallbackCodeBlock (files : List FileDiff) (lineComments : List AIComment)
    (cm : BatchComment) : String :=
  match fallbackOrig lineComments cm with
  | some o =>
    if !o.highlighted_code.data.isEmpty && !(jsTrim o.highlighted_code).data.isEmpty then
      "\n\n```\n" ++ o.highlighted_code ++ "\n```"
    else
      match getUnifiedExcerpt files (resolveReviewPath files cm.path) cm.line 2 with
      | some ex => "\n\n```diff\n" ++ ex ++ "\n```"
      | none => ""
  | none =>
    match getUnifiedExcerpt files (resolveReviewPath files cm.path) cm.line 2 with
    | some ex => "\n\n```diff\n" ++ ex ++ "\n```"
    | none => ""

/-- The `Context: path:line` segment of the fallback body
(`src/pull_request.ts` line 864). -/
def fallbackContext (files : List FileDiff) (cm : BatchComment) : String :=
  "Context: " ++ resolveReviewPath files cm.path ++ ":" ++ toString cm.line

/-- `fallbackBody` of `src/pull_request.ts` lines 864-866. -/
def fallbackBody (files : List FileDiff) (lineComments : List AIComment)
    (cm : BatchComment) : String :=
  cm.body ++ "\n\n" ++ fallbackContext files cm ++
    fallbackRenameNote files (resolveReviewPath files cm.path) ++
    (match fallbackOrig lineComments cm with
     | some o => if !o.header.data.isEmpty then "\n\n" ++ o.header else ""
     | none => "") ++
    fallbackCodeBlock files lineComments cm

/-- The upsert signature of the fallback comment (`src/pull_request.ts`
line 867). -/
def fallbackSig (files : List FileDiff) (lineComments : List AIComment)
    (cm : BatchComment) : String :=
  makeUpsertSignature "fallback" (resolveReviewPath files cm.path) (some cm.line)
    ((fallbackOrig lineComments cm).map (fun o => o.header)) (some cm.body)

/-- `bodyWithSig` of the fallback comment (`src/pull_request.ts` line
868), the text handed to `buildComment` and upserted by signature. -/
def fallbackBodyWithSig (files : List FileDiff) (lineComments : List AIComment)
    (cm : BatchComment) : String :=
  fallbackSig files lineComments cm ++ "\n" ++ fallbackBody files lineComments cm

/-- C9 (amended): when a batch submission throws, every comment of the
batch is attempted individually exactly once and in order (bounded
concurrency only interleaves host calls); each comment still failing after
retries yields a top-level fallback comment whose body carries the
recognizable `Context: file:line` string and its upsert signature (for
deduplication); a code excerpt is included only when highlighted code or
an in-hunk excerpt is available. -/
theorem fallback_coverage_context (files : List FileDiff)
    (lineComments : List AIComment) (batch : List BatchComment)
    (outcome : BatchComment → Nat → Bool) :
    ((batchAttempts batch outcome).map Prod.fst = batch)
    ∧ (∀ cm, cm ∈ rejectedOf batch outcome → cm ∈ batch)
    ∧ (∀ cm, cm ∈ rejectedOf batch outcome →
        jsIncludes (fallbackBodyWithSig files lineComments cm)
          (fallbackContext files cm) = true
        ∧ jsIncludes (fallbackBodyWithSig files lineComments cm)
          (fallbackSig files lineComments cm) = true) := by
  refine ⟨?_, ?_, ?_⟩
  · rw [batchAttempts, List.map_map]
    have hcomp : (Prod.fst ∘ fun p : Nat × BatchComment => (p.2, outcome p.2 p.1)) =
        Prod.snd := rfl
    rw [hcomp, List.enum_map_snd]
  · intro cm hcm
    rcases List.mem_map.mp hcm with ⟨p, hp, hpe⟩
    have hpe2 := (List.mem_filter.mp hp).1
    exact hpe ▸ List.getElem?_mem (List.mem_enum_iff_getElem?.mp hpe2)
  · intro cm _
    constructor
    · have hdata : (fallbackBodyWithSig files lineComments cm).data =
          (fallbackSig files lineComments cm ++ "\n" ++ cm.body ++ "\n\n").data ++
            (fallbackContext files cm).data ++
            (fallbackRenameNote files (resolveReviewPath files cm.path) ++
              (match fallbackOrig lineComments cm with
               | some o => if !o.header.data.isEmpty then "\n\n" ++ o.header else ""
               | none => "") ++
              fallbackCodeBlock files lineComments cm).data := by
        simp [fallbackBodyWithSig, fallbackBody]
      simp only [jsIncludes, hdata]
      exact (subB_iff _ _).mpr ⟨_, _, rfl⟩
    · have hdata : (fallbackBodyWithSig files lineComments cm).data =
          ([] : List Char) ++ (fallbackSig files lineComments cm).data ++
            ("\n" ++ fallbackBody files lineComments cm).data := by
        simp [fallbackBodyWithSig]
      simp only [jsIncludes, hdata]
      exact (subB_iff _ _).mpr ⟨_, _, rfl⟩

theorem fallback_coverage_context_witness :
    (batchAttempts [BatchComment.mk "a.ts" "Important issue" 3 none]
        (fun _ _ => false)).map Prod.fst = [BatchComment.mk "a.ts" "Important issue" 3 none]
    ∧ jsIncludes
        (fallbackBodyWithSig [FileDiff.mk "a.ts" none "modified" []]
          [AIComment.mk "a.ts" (some 3) (some 3) "" "" "Important issue" "bug" true]
          (BatchComment.mk "a.ts" "Important issue" 3 none))
        (fallbackContext [FileDiff.mk "a.ts" none "modified" []]
          (BatchComment.mk "a.ts" "Important issue" 3 none)) = true :=
  ⟨(fallback_coverage_context [FileDiff.mk "a.ts" none "modified" []]
      [AIComment.mk "a.ts" (some 3) (some 3) "" "" "Important issue" "bug" true]
      [BatchComment.mk "a.ts" "Important issue" 3 none] (fun _ _ => false)).1,
    ((fallback_coverage_context [FileDiff.mk "a.ts" none "modified" []]
        [AIComment.mk "a.ts" (some 3) (some 3) "" "" "Important issue" "bug" true]
        [BatchComment.mk "a.ts" "Important issue" 3 none] (fun _ _ => false)).2.2
      (BatchComment.mk "a.ts" "Important issue" 3 none) (by decide)).1⟩

/-- C9 counterexample: this batch comment fails its individual
resubmission, its finding has empty highlighted code and its file has no
hunks (a binary/patch-less file), so the fallback body is posted with no
code excerpt at all (no fence appears in it) — the claim says every
fallback comment carries one. -/
theorem fallback_no_excerpt_cex :
    rejectedOf [BatchComment.mk "a.ts" "Important issue" 3 none] (fun _ _ => false) =
      [BatchComment.mk "a.ts" "Important issue" 3 none]
    ∧ jsIncludes
        (fallbackBodyWithSig [FileDiff.mk "a.ts" none "modified" []]
          [AIComment.mk "a.ts" (some 3) (some 3) "" "" "Important issue" "bug" true]
          (BatchComment.mk "a.ts" "Important issue" 3 none)) "```" = false := by
  refine ⟨by decide, by decide⟩

/-- The raw changed-file record handed to `parseFileDiff` (`File` of
`src/diff.ts`); `patch` is absent for binary/too-large diffs. -/
structure File where
  filename : String
  previous_filename : Option String
  status : String
  patch : Option String
deriving DecidableEq, Repr

/-- Longest leading run of decimal digits and the remaining characters. -/
def takeDigits : List Char → List Char × List Char
  | [] => ([], [])
  | c :: t =>
    if c.isDigit then
      let p := takeDigits t
      (c :: p.1, p.2)
    else ([], c :: t)

/-- Decimal value of a digit run. -/
def digitsToNat (ds : List Char) : Nat :=
  ds.foldl (fun n c => n * 10 + (c.toNat - 48)) 0

/-- Parse one or more digits, returning the value and the rest. -/
def parseNum (l : List Char) : Option (Nat × List Char) :=
  match takeDigits l with
  | ([], _) => none
  | (ds, r) => some (digitsToNat ds, r)

/-- Parse an optional `,len` part of a hunk range; a missing length
defaults to 1 as in unified-diff syntax. -/
def parseOptLen (l : List Char) : Option (Nat × List Char) :=
  if prefB ",".data l then parseNum (l.drop 1) else some (1, l)

/-- Modelled from the spec: `src/diff.ts` is not among the provided
sources (only its test and callers are), so the hunk-header recognition is
taken from spec §4.1 — a line matching
`@@ -<oldStart>,<oldLen> +<newStart>,<newLen> @@` yields
`(oldStart, oldLen, newStart, newLen)`. -/
def parseHunkHeader (line : String) : Option (Nat × Nat × Nat × Nat) :=
  if prefB "@@ -".data line.data then
    match parseNum (line.data.drop 4) with
    | none => none
    | some (a, r1) =>
      match parseOptLen r1 with
      | none => none
      | some (b, r2) =>
        if prefB " +".data r2 then
          match parseNum (r2.drop 2) with
          | none => none
          | some (c, r3) =>
            match parseOptLen r3 with
            | none => none
            | some (d, r4) =>
              if prefB " @@".data r4 then some (a, b, c, d) else none
        else none
  else none

/-- Append the in-progress hunk, if any, to the finished list. -/
def flushHunk (acc : List Hunk × Option (Nat × Nat × List String)) : List Hunk :=
  match acc.2 with
  | some (s, e, ls) => acc.1 ++ [Hunk.mk s e (String.intercalate "\n" ls)]
  | none => acc.1

/-- Modelled from the spec (§4.1): split the patch text on hunk-header
lines; each hunk is anchored at `startLine = newStart`,
`endLine = newStart + newLen - 1`, clamped so a zero-length new range
still yields a valid single-point anchor; every non-header line of the
hunk body is retained verbatim in the hunk's diff text. -/
def specHunksOf (patch : String) : List Hunk :=
  flushHunk
    ((jsSplitLines patch).foldl
      (fun acc line =>
        match parseHunkHeader line with
        | some (_, _, c, d) =>
          (flushHunk acc, some (c, if d = 0 then c else c + d - 1, [line]))
        | none =>
          match acc.2 with
          | some (s, e, ls) => (acc.1, some (s, e, ls ++ [line]))
          | none => acc)
      ([], none))

/-- Modelled from the spec: `parseFileDiff(file, existingThreads)` of the
missing `src/diff.ts` — an absent patch yields zero hunks; otherwise the
patch is split into anchored hunks.  (Attachment of existing comment
threads to hunks is not needed by any claim and is not modelled.) -/
def parseFileDiff (file : File) : FileDiff :=
  { filename := file.filename
    previous_filename := file.previous_filename
    status := file.status
    hunks :=
      match file.patch with
      | none => []
      | some p => specHunksOf p }

/-- C1: under the spec's anchor formula, a patch with header
`@@ -1,5 +1,6 @@` parses to exactly one hunk with `startLine = 1` and
`endLine = 1 + 6 - 1 = 6` — both for the spec's example body and for the
repository's own test patch (`src/src/__tests__/diff.test.ts` lines
4-21), whose expectation of `endLine = 8` contradicts this formula; a
patch-less file yields zero hunks. -/
theorem parseFileDiff_hunk_anchor :
    ((parseFileDiff (File.mk "src/test.ts" none "modified"
        (some "@@ -1,5 +1,6 @@\n import \x7b something \x7d from \x27somewhere\x27;\n \n-function oldFunction() \x7b\n+function newFunction() \x7b\n+  // Added comment\n   return true;\n \x7d\n"))).hunks.map
      (fun h => (h.startLine, h.endLine))) = [(1, 6)]
    ∧ ((parseFileDiff (File.mk "x.ts" none "modified"
        (some "@@ -1,5 +1,6 @@\n ctx\n-old\n+new1\n+new2\n ctx2\n"))).hunks.map
      (fun h => (h.startLine, h.endLine))) = [(1, 6)]
    ∧ ((parseFileDiff (File.mk "src/test.ts" none "modified"
        (some "@@ -1,5 +1,6 @@\n import \x7b something \x7d from \x27somewhere\x27;\n \n-function oldFunction() \x7b\n+function newFunction() \x7b\n+  // Added comment\n   return true;\n \x7d\n"))).hunks.map
      (fun h => h.endLine)) ≠ [8]
    ∧ (parseFileDiff (File.mk "src/binary.png" none "added" none)).hunks = [] := by
  refine ⟨by decide, by decide, by decide, rfl⟩
